import Mathlib

/-!
Verification of the Stride fees service (`stride_client.py`, `main.py`).

The price cache, the batched price fetch, the fee calculation and the
single-chain HTTP handler are embedded shallowly:

* machine floats become exact rationals (`ℚ`);
* `datetime.now()` becomes an integer timestamp parameter (seconds), so the
  5-minute window `timedelta(minutes=5)` becomes the constant `300`;
* the price oracle (CoinGecko) is a parameter
  `oracle : Option (String → Option ℚ)`: `none` models a failing request
  (network error, HTTP error status, undecodable body), `some resp` models a
  successful response where `resp id` is `data.get(id, {}).get("usd")`;
* the blockchain gateway is a parameter `hostZones : String → Option HostZone`
  (`get_host_zone` catches its own errors and returns `None`, so a network
  failure and a missing host zone are both `none`);
* Python dicts become functions into `Option`; a returned price mapping is
  `String → Option (Option ℚ)` (outer `Option` = key present, inner = the
  stored `Optional[float]`).
-/

namespace StrideFees

/-- Model of Python `str.lower()` (ASCII range, which covers every chain name
the tables mention). -/
def pyLower (s : String) : String := ⟨s.data.map Char.toLower⟩

/-- `StrideClient.CHAIN_ID_MAP`: DefiLlama chain name → Stride host-zone chain id. -/
def CHAIN_ID_MAP : String → Option String
  | "cosmos" => some "cosmoshub-4"
  | "celestia" => some "celestia"
  | "osmosis" => some "osmosis-1"
  | "dydx" => some "dydx-mainnet-1"
  | "dymension" => some "dymension_1100-1"
  | "juno" => some "juno-1"
  | "stargaze" => some "stargaze-1"
  | "terra" => some "phoenix-1"
  | "terra2" => some "phoenix-1"
  | "evmos" => some "evmos_9001-2"
  | "injective" => some "injective-1"
  | "umee" => some "umee-1"
  | "comdex" => some "comdex-1"
  | "haqq" => some "haqq_11235-1"
  | "band" => some "laozi-mainnet"
  | _ => none

/-- `StrideClient.COINGECKO_IDS`: chain name → CoinGecko price-feed identifier. -/
def COINGECKO_IDS : String → Option String
  | "cosmos" => some "cosmos"
  | "celestia" => some "celestia"
  | "osmosis" => some "osmosis"
  | "dydx" => some "dydx-chain"
  | "dymension" => some "dymension"
  | "juno" => some "juno-network"
  | "stargaze" => some "stargaze"
  | "terra" => some "terra-luna-2"
  | "terra2" => some "terra-luna-2"
  | "evmos" => some "evmos"
  | "injective" => some "injective-protocol"
  | "umee" => some "umee"
  | "comdex" => some "comdex"
  | "haqq" => some "islamic-coin"
  | "band" => some "band-protocol"
  | _ => none

/-- `StrideClient.TOKEN_DECIMALS`: chain name → native-token decimal places. -/
def TOKEN_DECIMALS : String → Option Nat
  | "cosmos" => some 6
  | "celestia" => some 6
  | "osmosis" => some 6
  | "dydx" => some 18
  | "dymension" => some 18
  | "juno" => some 6
  | "stargaze" => some 6
  | "terra" => some 6
  | "terra2" => some 6
  | "evmos" => some 18
  | "injective" => some 18
  | "umee" => some 6
  | "comdex" => some 6
  | "haqq" => some 18
  | "band" => some 6
  | _ => none

/-- One entry of `self._price_cache`: `{"price": float, "timestamp": datetime}`. -/
structure CacheEntry where
  price : ℚ
  timestamp : ℤ
deriving DecidableEq, Repr

/-- `self._price_cache : Dict[str, Dict]`. -/
abbrev Cache := String → Option CacheEntry

/-- `self._cache_duration = timedelta(minutes=5)`, in seconds. -/
def cacheDuration : ℤ := 5 * 60

/-- Python dict assignment `d[k] = v` on a dict modelled as a function. -/
def updFn {β : Type} (f : String → Option β) (k : String) (v : β) :
    String → Option β :=
  fun x => if x = k then some v else f x

/-- `StrideClient._is_price_cached`: entry present and
`datetime.now() - timestamp < cache_duration`. -/
def _is_price_cached (cache : Cache) (now : ℤ) (chain : String) : Bool :=
  match cache chain with
  | none => false
  | some e => decide (now - e.timestamp < cacheDuration)

/-- The price of a chain's cache entry (`self._price_cache[chain]["price"]`);
`none` when there is no entry, which cannot happen where the source reads it
(it only reads entries `_is_price_cached` has just validated). -/
def cachedVal (cache : Cache) (chain : String) : Option ℚ :=
  (cache chain).map CacheEntry.price

/-- One iteration of the first loop of `get_token_prices_batch`: a fresh chain
is served from the cache, any other chain is appended to `chains_to_fetch`. -/
def pricePartitionStep (cache : Cache) (now : ℤ)
    (acc : (String → Option (Option ℚ)) × List String) (chain : String) :
    (String → Option (Option ℚ)) × List String :=
  if _is_price_cached cache now chain then
    (updFn acc.1 chain (cachedVal cache chain), acc.2)
  else
    (acc.1, acc.2 ++ [chain])

/-- The first loop of `get_token_prices_batch`: partition `chains` into the
already-built `prices` dict and `chains_to_fetch`. -/
def pricePartition (cache : Cache) (now : ℤ) (chains : List String) :
    (String → Option (Option ℚ)) × List String :=
  chains.foldl (pricePartitionStep cache now) (fun _ => none, [])

/-- Python dict assignment `chain_id_map[coingecko_id] = chain` on an
insertion-ordered association list: overwrite in place if the key exists,
append otherwise. -/
def dictInsert (d : List (String × String)) (k v : String) :
    List (String × String) :=
  if d.any (fun p => p.1 = k) then
    d.map (fun p => if p.1 = k then (k, v) else p)
  else d ++ [(k, v)]

/-- One iteration of the identifier-resolution loop: a chain with a known
CoinGecko id contributes to `coingecko_ids` and `chain_id_map`, others are
dropped. -/
def buildIdStep (acc : List String × List (String × String)) (chain : String) :
    List String × List (String × String) :=
  match COINGECKO_IDS chain with
  | some cid => (acc.1 ++ [cid], dictInsert acc.2 cid chain)
  | none => acc

/-- The identifier-resolution loop of `get_token_prices_batch`, producing
`coingecko_ids` and `chain_id_map`. -/
def buildIdMap (chains_to_fetch : List String) :
    List String × List (String × String) :=
  chains_to_fetch.foldl buildIdStep ([], [])

/-- One iteration of the cache-and-store loop over `chain_id_map.items()`:
if the response has a price for the id, store it in `prices` and in the cache
with the current timestamp; otherwise record `None` in `prices` and leave the
cache alone. -/
def fetchWrite (resp : String → Option ℚ) (now : ℤ)
    (acc : (String → Option (Option ℚ)) × Cache) (e : String × String) :
    (String → Option (Option ℚ)) × Cache :=
  match resp e.1 with
  | some p => (updFn acc.1 e.2 (some p), updFn acc.2 e.2 ⟨p, now⟩)
  | none => (updFn acc.1 e.2 none, acc.2)

/-- One iteration of the `except` branch of `get_token_prices_batch`:
`if chain not in prices: prices[chain] = None`. -/
def fillStep (ps : String → Option (Option ℚ)) (chain : String) :
    String → Option (Option ℚ) :=
  match ps chain with
  | some _ => ps
  | none => updFn ps chain none

/-- The `except` branch of `get_token_prices_batch`: fill in `None` for every
chain of `chains_to_fetch` that is not already a key of `prices`. -/
def fillAbsent (ps : String → Option (Option ℚ)) (l : List String) :
    String → Option (Option ℚ) :=
  l.foldl fillStep ps

/-- The single outbound call to the price oracle:
`GET {price_api_url}/simple/price?ids=...&vs_currencies=usd`. -/
structure OracleRequest where
  ids : List String
  vs_currencies : String
deriving DecidableEq, Repr

/-- Result of one `get_token_prices_batch` call: the returned `prices` dict,
the price cache after the call, and the outbound oracle requests it issued. -/
structure BatchOut where
  prices : String → Option (Option ℚ)
  cache : Cache
  requests : List OracleRequest

/-- `StrideClient.get_token_prices_batch`.  `oracle = none` models the HTTP
request (or response decoding) raising; `oracle = some resp` models a
successful response.  The body holds the fetch lock, so one call is atomic;
the lock itself needs no model for a single call. -/
def get_token_prices_batch (chains : List String)
    (oracle : Option (String → Option ℚ)) (now : ℤ) (cache : Cache) :
    BatchOut :=
  let part := pricePartition cache now chains
  let prices := part.1
  let chains_to_fetch := part.2
  if chains_to_fetch.isEmpty then
    ⟨prices, cache, []⟩
  else
    let ids_map := buildIdMap chains_to_fetch
    let coingecko_ids := ids_map.1
    let chain_id_map := ids_map.2
    if coingecko_ids.isEmpty then
      -- only a warning is logged; no request is attempted, so nothing can fail
      ⟨prices, cache, []⟩
    else
      match oracle with
      | some resp =>
        let res := chain_id_map.foldl (fetchWrite resp now) (prices, cache)
        ⟨res.1, res.2, [⟨coingecko_ids, "usd"⟩]⟩
      | none =>
        -- the request was issued and failed; cache untouched, `None` filled in
        ⟨fillAbsent prices chains_to_fetch, cache, [⟨coingecko_ids, "usd"⟩]⟩

/-- `StrideClient.get_token_price`: serve a fresh cache entry directly,
otherwise delegate to a one-element batch and read the result with
`prices.get(chain)` (which flattens a missing key and a stored `None`). -/
def get_token_price (chain : String) (oracle : Option (String → Option ℚ))
    (now : ℤ) (cache : Cache) : Option ℚ × Cache :=
  if _is_price_cached cache now chain then
    (cachedVal cache chain, cache)
  else
    let b := get_token_prices_batch [chain] oracle now cache
    ((b.prices chain).join, b.cache)

/-- A host-zone snapshot as `calculate_daily_fee` reads it; each field is
`host_zone.get(...)`, `none` when the key is missing (the numeric strings are
modelled already parsed). -/
structure HostZone where
  redemption_rate : Option ℚ
  total_delegations : Option ℚ
  host_denom : Option String
deriving DecidableEq

/-- The two errors `calculate_daily_fee` can raise; both are `ValueError` in
the source. -/
inductive FeeError where
  | unknownChain (chain : String)
  | hostZoneNotFound (chain_id : String)
deriving DecidableEq, Repr

/-- The returned dict `{"dailyFees": ..., "dailyRevenue": ...}`. -/
structure FeeEstimate where
  dailyFees : ℚ
  dailyRevenue : ℚ
deriving DecidableEq, Repr

/-- `StrideClient.calculate_daily_fee`.  The cache side effect of the inner
`get_token_price` call is the one `get_token_price` itself models; the
`st_denom` computation of the source is dead code (never used afterwards) and
is omitted.  Python's `if not token_price: token_price = 0.0` maps `None` and
`0.0` both to `0`, which `(...).getD 0` reproduces exactly. -/
def calculate_daily_fee (chain : String)
    (hostZones : String → Option HostZone)
    (oracle : Option (String → Option ℚ)) (now : ℤ) (cache : Cache) :
    Except FeeError FeeEstimate :=
  match CHAIN_ID_MAP (pyLower chain) with
  | none => .error (.unknownChain chain)
  | some chain_id =>
    match hostZones chain_id with
    | none => .error (.hostZoneNotFound chain_id)
    | some host_zone =>
      let redemption_rate := host_zone.redemption_rate.getD 1
      let staked_amount := host_zone.total_delegations.getD 0
      let total_native_value := staked_amount * redemption_rate
      let estimated_daily_rate : ℚ := 0.0005
      let daily_rewards_native := total_native_value * estimated_daily_rate
      let token_price := (get_token_price chain oracle now cache).1.getD 0
      let decimals := (TOKEN_DECIMALS chain).getD 6
      let divisor : ℚ := 10 ^ decimals
      let daily_fees_usd := daily_rewards_native * token_price / divisor
      let daily_revenue_usd := daily_fees_usd * 0.10
      .ok ⟨daily_fees_usd, daily_revenue_usd⟩

/-- The handler `get_chain_fees` of `GET /api/{chain}/stats/fees`
(`main.py`): lower-case the path parameter, rewrite `terra` to `terra2`, call
`calculate_daily_fee`, and map its outcome to an HTTP status.  Both failure
modes of `calculate_daily_fee` are `ValueError`, so both land in the
`except ValueError` arm, a 404; the generic 500 arm is unreachable in this
model because nothing else in `calculate_daily_fee` raises. -/
def get_chain_fees (chain : String) (hostZones : String → Option HostZone)
    (oracle : Option (String → Option ℚ)) (now : ℤ) (cache : Cache) :
    Nat × Option FeeEstimate :=
  let c1 := pyLower chain
  let c2 := if c1 = "terra" then "terra2" else c1
  match calculate_daily_fee c2 hostZones oracle now cache with
  | .ok fe => (200, some fe)
  | .error _ => (404, none)


/-! ### Concrete instances used by witnesses and counterexamples -/

/-- A cold price cache. -/
def emptyCache : Cache := fun _ => none

/-- A gateway on which every host-zone fetch fails. -/
def noHostZones : String → Option HostZone := fun _ => none

/-- An oracle response that prices the Terra id at $1. -/
def respTerra : String → Option ℚ :=
  fun i => if i = "terra-luna-2" then some 1 else none

/-- An oracle response that prices the Cosmos id at $10. -/
def respOk : String → Option ℚ :=
  fun i => if i = "cosmos" then some 10 else none

/-- The host zone from the worked example of the spec:
redemptionRate 1.5, totalDelegatedStake 1,000,000. -/
def hzExample : HostZone := ⟨some (3/2), some 1000000, some "uatom"⟩

/-- A gateway that knows only the Cosmos Hub host zone. -/
def hostZonesExample : String → Option HostZone :=
  fun cid => if cid = "cosmoshub-4" then some hzExample else none

/-- A cache holding a fresh $10 price for `cosmos` fetched at time 0. -/
def cacheExample : Cache :=
  fun c => if c = "cosmos" then some ⟨10, 0⟩ else none

/-! ### Helper lemmas about the loop bodies -/

theorem cacheDuration_eq : cacheDuration = 300 := rfl

theorem updFn_self {β : Type} (f : String → Option β) (k : String) (v : β) :
    updFn f k v k = some v := by
  simp [updFn]

theorem updFn_ne {β : Type} (f : String → Option β) (k : String) (v : β)
    {x : String} (h : x ≠ k) : updFn f k v x = f x := by
  simp [updFn, h]

theorem cached_entry {cache : Cache} {now : ℤ} {c : String}
    (h : _is_price_cached cache now c = true) :
    ∃ e, cache c = some e ∧ now - e.timestamp < cacheDuration := by
  unfold _is_price_cached at h
  cases hc : cache c with
  | none => rw [hc] at h; cases h
  | some e => rw [hc] at h; exact ⟨e, rfl, of_decide_eq_true h⟩

theorem stale_mono {cache : Cache} {t1 t2 : ℤ} {c : String} (h12 : t1 ≤ t2)
    (h : _is_price_cached cache t1 c = false) :
    _is_price_cached cache t2 c = false := by
  unfold _is_price_cached at h ⊢
  cases hc : cache c with
  | none => rfl
  | some e =>
    rw [hc] at h
    rw [decide_eq_false_iff_not] at h
    rw [decide_eq_false_iff_not]
    omega

theorem partition_foldl_snd (cache : Cache) (now : ℤ) (chains : List String)
    (acc : (String → Option (Option ℚ)) × List String) :
    (chains.foldl (pricePartitionStep cache now) acc).2
      = acc.2 ++ chains.filter (fun c => !_is_price_cached cache now c) := by
  induction chains generalizing acc with
  | nil => simp
  | cons c rest ih =>
    simp only [List.foldl_cons]
    rw [ih]
    by_cases hf : _is_price_cached cache now c = true
    · simp [pricePartitionStep, hf]
    · simp only [Bool.not_eq_true] at hf
      simp [pricePartitionStep, hf]

theorem partition_foldl_fst (cache : Cache) (now : ℤ) (chains : List String)
    (acc : (String → Option (Option ℚ)) × List String) (x : String) :
    (chains.foldl (pricePartitionStep cache now) acc).1 x
      = if x ∈ chains ∧ _is_price_cached cache now x then some (cachedVal cache x)
        else acc.1 x := by
  induction chains generalizing acc with
  | nil => simp
  | cons c rest ih =>
    simp only [List.foldl_cons]
    rw [ih]
    by_cases hxc : x = c
    · subst hxc
      by_cases hf : _is_price_cached cache now x = true
      · simp [pricePartitionStep, hf, updFn]
      · simp only [Bool.not_eq_true] at hf
        simp [pricePartitionStep, hf]
    · by_cases hf : _is_price_cached cache now c = true
      · simp only [pricePartitionStep, hf, if_true]
        rw [updFn_ne _ _ _ hxc]
        simp [List.mem_cons, hxc]
      · simp only [Bool.not_eq_true] at hf
        simp [pricePartitionStep, hf, List.mem_cons, hxc]

theorem buildId_foldl_fst (l : List String) (a1 : List String)
    (a2 : List (String × String)) :
    (l.foldl buildIdStep (a1, a2)).1 = a1 ++ l.filterMap COINGECKO_IDS := by
  induction l generalizing a1 a2 with
  | nil => simp
  | cons c rest ih =>
    simp only [List.foldl_cons]
    cases h : COINGECKO_IDS c with
    | none => simp [buildIdStep, h, ih, List.filterMap_cons]
    | some cid => simp [buildIdStep, h, ih, List.filterMap_cons]

theorem dictInsert_mem {d : List (String × String)} {k v : String}
    {e : String × String} (h : e ∈ dictInsert d k v) : e ∈ d ∨ e = (k, v) := by
  unfold dictInsert at h
  split at h
  · rcases List.mem_map.mp h with ⟨p, hp, hpe⟩
    by_cases hk : p.1 = k
    · rw [if_pos hk] at hpe
      exact Or.inr hpe.symm
    · rw [if_neg hk] at hpe
      exact Or.inl (hpe ▸ hp)
  · rcases List.mem_append.mp h with h1 | h1
    · exact Or.inl h1
    · right; simpa using h1

theorem buildId_foldl_mem {l : List String} {a1 : List String}
    {a2 : List (String × String)} {e : String × String}
    (h : e ∈ (l.foldl buildIdStep (a1, a2)).2) :
    e ∈ a2 ∨ (e.2 ∈ l ∧ COINGECKO_IDS e.2 = some e.1) := by
  induction l generalizing a1 a2 with
  | nil => exact Or.inl h
  | cons c rest ih =>
    simp only [List.foldl_cons] at h
    cases hc : COINGECKO_IDS c with
    | none =>
      rw [buildIdStep, hc] at h
      rcases ih h with h1 | ⟨h1, h2⟩
      · exact Or.inl h1
      · exact Or.inr ⟨List.mem_cons_of_mem _ h1, h2⟩
    | some cid =>
      rw [buildIdStep, hc] at h
      rcases ih h with h1 | ⟨h1, h2⟩
      · rcases dictInsert_mem h1 with h3 | h3
        · exact Or.inl h3
        · refine Or.inr ?_
          rw [h3]
          exact ⟨List.mem_cons_self _ _, hc⟩
      · exact Or.inr ⟨List.mem_cons_of_mem _ h1, h2⟩

theorem fillStep_eval (ps : String → Option (Option ℚ)) (c x : String) :
    fillStep ps c x = if x = c ∧ ps c = none then some none else ps x := by
  unfold fillStep
  cases hc : ps c with
  | some v => simp [hc]
  | none =>
    by_cases hx : x = c
    · subst hx; simp [hc, updFn]
    · simp [hc, hx, updFn]

theorem fillAbsent_not_mem (ps : String → Option (Option ℚ)) (l : List String)
    {x : String} (h : x ∉ l) : fillAbsent ps l x = ps x := by
  induction l generalizing ps with
  | nil => rfl
  | cons c rest ih =>
    have hxc : x ≠ c := fun he => h (he ▸ List.mem_cons_self _ _)
    have hxr : x ∉ rest := fun he => h (List.mem_cons_of_mem _ he)
    show fillAbsent (fillStep ps c) rest x = ps x
    rw [ih _ hxr, fillStep_eval]
    simp [hxc]

theorem fillAbsent_mem (ps : String → Option (Option ℚ)) (l : List String)
    {x : String} (h : x ∈ l) : fillAbsent ps l x = some ((ps x).join) := by
  induction l generalizing ps with
  | nil => cases h
  | cons c rest ih =>
    show fillAbsent (fillStep ps c) rest x = some ((ps x).join)
    by_cases hr : x ∈ rest
    · rw [ih _ hr, fillStep_eval]
      by_cases h1 : x = c ∧ ps c = none
      · rcases h1 with ⟨h1, h2⟩
        subst h1
        simp [h2]
      · rw [if_neg h1]
    · have hxc : x = c := by
        rcases List.mem_cons.mp h with h1 | h1
        · exact h1
        · exact absurd h1 hr
      subst hxc
      rw [fillAbsent_not_mem _ _ hr, fillStep_eval]
      cases hc : ps x with
      | some v => simp [hc]
      | none => simp [hc]

theorem fetchWrite_foldl_untouched (resp : String → Option ℚ) (now : ℤ)
    (m : List (String × String)) (acc : (String → Option (Option ℚ)) × Cache)
    {x : String} (h : ∀ e ∈ m, e.2 ≠ x) :
    (m.foldl (fetchWrite resp now) acc).1 x = acc.1 x ∧
    (m.foldl (fetchWrite resp now) acc).2 x = acc.2 x := by
  induction m generalizing acc with
  | nil => exact ⟨rfl, rfl⟩
  | cons e rest ih =>
    have hex : x ≠ e.2 := fun he => h e (List.mem_cons_self _ _) he.symm
    have hrest : ∀ e' ∈ rest, e'.2 ≠ x := fun e' he' => h e' (List.mem_cons_of_mem _ he')
    simp only [List.foldl_cons]
    rcases ih (fetchWrite resp now acc e) hrest with ⟨h1, h2⟩
    rw [h1, h2]
    cases hre : resp e.1 with
    | some p =>
      rw [fetchWrite, hre]
      exact ⟨updFn_ne _ _ _ hex, updFn_ne _ _ _ hex⟩
    | none =>
      rw [fetchWrite, hre]
      exact ⟨updFn_ne _ _ _ hex, rfl⟩

theorem fetchWrite_foldl_write (resp : String → Option ℚ) (now : ℤ)
    (m : List (String × String)) (acc : (String → Option (Option ℚ)) × Cache)
    {x i : String} {p : ℚ} (hnd : (m.map Prod.snd).Nodup) (hm : (i, x) ∈ m)
    (hp : resp i = some p) :
    (m.foldl (fetchWrite resp now) acc).1 x = some (some p) ∧
    (m.foldl (fetchWrite resp now) acc).2 x = some ⟨p, now⟩ := by
  induction m generalizing acc with
  | nil => cases hm
  | cons e rest ih =>
    simp only [List.map_cons, List.nodup_cons] at hnd
    simp only [List.foldl_cons]
    rcases List.mem_cons.mp hm with he | he
    · have hx2 : e.2 = x := by rw [← he]
      have hrest : ∀ e' ∈ rest, e'.2 ≠ x := by
        intro e' he' hc
        exact hnd.1 (hx2 ▸ hc ▸ List.mem_map_of_mem Prod.snd he')
      rcases fetchWrite_foldl_untouched resp now rest (fetchWrite resp now acc e) hrest
        with ⟨h1, h2⟩
      rw [h1, h2, fetchWrite, ← he]
      simp only [hp]
      exact ⟨updFn_self _ _ _, updFn_self _ _ _⟩
    · exact ih (fetchWrite resp now acc e) hnd.2 he

theorem fetchWrite_foldl_cases (resp : String → Option ℚ) (now : ℤ)
    (m : List (String × String)) (acc : (String → Option (Option ℚ)) × Cache)
    (x : String) :
    (m.foldl (fetchWrite resp now) acc).2 x = acc.2 x ∨
    ∃ i p, (i, x) ∈ m ∧ resp i = some p ∧
      (m.foldl (fetchWrite resp now) acc).2 x = some ⟨p, now⟩ := by
  induction m generalizing acc with
  | nil => exact Or.inl rfl
  | cons e rest ih =>
    simp only [List.foldl_cons]
    rcases ih (fetchWrite resp now acc e) with h | ⟨i, p, hm, hp, he⟩
    · cases hre : resp e.1 with
      | some p =>
        by_cases hx : x = e.2
        · right
          refine ⟨e.1, p, ?_, hre, ?_⟩
          · have : (e.1, x) = e := by rw [hx]
            rw [this]; exact List.mem_cons_self _ _
          · rw [h, fetchWrite, hre, hx]
            exact updFn_self _ _ _
        · left
          rw [h, fetchWrite, hre]
          exact updFn_ne _ _ _ hx
      | none =>
        left
        rw [h, fetchWrite, hre]
    · exact Or.inr ⟨i, p, List.mem_cons_of_mem _ hm, hp, he⟩


/-! ### Top-level characterizations of the batch call -/

theorem pricePartition_snd (cache : Cache) (now : ℤ) (chains : List String) :
    (pricePartition cache now chains).2
      = chains.filter (fun c => !_is_price_cached cache now c) := by
  unfold pricePartition
  rw [partition_foldl_snd]
  rfl

theorem pricePartition_fst (cache : Cache) (now : ℤ) (chains : List String)
    (x : String) :
    (pricePartition cache now chains).1 x
      = if x ∈ chains ∧ _is_price_cached cache now x then some (cachedVal cache x)
        else none := by
  unfold pricePartition
  rw [partition_foldl_fst]

theorem buildIdMap_fst (l : List String) :
    (buildIdMap l).1 = l.filterMap COINGECKO_IDS := by
  unfold buildIdMap
  rw [buildId_foldl_fst]
  rfl


/-! ### Claim theorems -/

/-- C8: for every chain, cache state, timestamp and oracle behaviour,
`get_token_price chain` returns exactly the price-or-absent value that
`get_token_prices_batch [chain]` returns at key `chain` (a missing key and a
stored `None` both read as absent, as Python's `prices.get(chain)` does). -/
theorem get_matches_batch (chain : String)
    (oracle : Option (String → Option ℚ)) (now : ℤ) (cache : Cache) :
    (get_token_price chain oracle now cache).1
      = ((get_token_prices_batch [chain] oracle now cache).prices chain).join := by
  unfold get_token_price
  by_cases hf : _is_price_cached cache now chain = true
  · rw [if_pos hf]
    have hsnd : (pricePartition cache now [chain]).2 = [] := by
      rw [pricePartition_snd]
      simp [hf]
    have hp : (get_token_prices_batch [chain] oracle now cache).prices chain
        = some (cachedVal cache chain) := by
      simp only [get_token_prices_batch, hsnd, List.isEmpty_nil, if_true]
      rw [pricePartition_fst]
      simp [hf]
    rw [hp]
    rfl
  · rw [if_neg hf]

/-- C1: a failed outbound price request (`oracle = none`, covering network
errors, HTTP error statuses and undecodable bodies) never raises — the
embedded `get_token_prices_batch` is total and this theorem exhibits its
normal return value: the cache is left entirely untouched and every chain of
the stale-or-absent set reads back as absent. -/
theorem batch_failure_degrades (chains : List String) (now : ℤ) (cache : Cache) :
    (get_token_prices_batch chains none now cache).cache = cache ∧
    ∀ c ∈ chains, _is_price_cached cache now c = false →
      ((get_token_prices_batch chains none now cache).prices c).join = none := by
  constructor
  · simp only [get_token_prices_batch]
    split
    · rfl
    · split
      · rfl
      · rfl
  · intro c hc hstale
    have hctf : c ∈ (pricePartition cache now chains).2 := by
      rw [pricePartition_snd]
      exact List.mem_filter.mpr ⟨hc, by simp [hstale]⟩
    have hne : ¬(pricePartition cache now chains).2.isEmpty = true := by
      rw [List.isEmpty_iff]
      exact List.ne_nil_of_mem hctf
    have hpn : (pricePartition cache now chains).1 c = none := by
      rw [pricePartition_fst]
      simp [hstale]
    simp only [get_token_prices_batch]
    rw [if_neg hne]
    by_cases hid : (buildIdMap (pricePartition cache now chains).2).1.isEmpty = true
    · rw [if_pos hid]
      show ((pricePartition cache now chains).1 c).join = none
      rw [hpn]
      rfl
    · rw [if_neg hid]
      show ((fillAbsent (pricePartition cache now chains).1
        (pricePartition cache now chains).2) c).join = none
      rw [fillAbsent_mem _ _ hctf, hpn]
      rfl

/-- C1 witness: the theorem applied to a one-element cold-cache batch. -/
theorem batch_failure_degrades_witness :
    (get_token_prices_batch ["cosmos"] none 0 emptyCache).cache = emptyCache ∧
    ("cosmos" ∈ ["cosmos"] ∧ _is_price_cached emptyCache 0 "cosmos" = false) ∧
    ((get_token_prices_batch ["cosmos"] none 0 emptyCache).prices "cosmos").join
      = none :=
  ⟨(batch_failure_degrades ["cosmos"] 0 emptyCache).1,
   ⟨by decide, by decide⟩,
   (batch_failure_degrades ["cosmos"] 0 emptyCache).2 "cosmos" (by decide)
     (by decide)⟩

/-- C4: whenever the stale-or-absent set resolves to at least one known
price-feed identifier, the batch call issues exactly one oracle request,
carrying all resolved identifiers combined and `usd` as the target currency;
and no batch call ever issues more than one request. -/
theorem batch_single_request (chains : List String)
    (oracle : Option (String → Option ℚ)) (now : ℤ) (cache : Cache) :
    ((∃ c ∈ (pricePartition cache now chains).2, (COINGECKO_IDS c).isSome) →
      (get_token_prices_batch chains oracle now cache).requests
        = [⟨(pricePartition cache now chains).2.filterMap COINGECKO_IDS, "usd"⟩]) ∧
    (get_token_prices_batch chains oracle now cache).requests.length ≤ 1 := by
  constructor
  · rintro ⟨c, hc, hid⟩
    have hne : ¬(pricePartition cache now chains).2.isEmpty = true := by
      rw [List.isEmpty_iff]
      exact List.ne_nil_of_mem hc
    rcases Option.isSome_iff_exists.mp hid with ⟨i, hi⟩
    have hmem : i ∈ (buildIdMap (pricePartition cache now chains).2).1 := by
      rw [buildIdMap_fst]
      exact List.mem_filterMap.mpr ⟨c, hc, hi⟩
    have hne2 : ¬(buildIdMap (pricePartition cache now chains).2).1.isEmpty = true := by
      rw [List.isEmpty_iff]
      exact List.ne_nil_of_mem hmem
    simp only [get_token_prices_batch]
    rw [if_neg hne, if_neg hne2]
    cases oracle with
    | some resp => rw [← buildIdMap_fst]
    | none => rw [← buildIdMap_fst]
  · simp only [get_token_prices_batch]
    split
    · simp
    · split
      · simp
      · cases oracle with
        | some resp => simp
        | none => simp

/-- C4 witness: a cold-cache request for `cosmos` resolves one identifier and
issues exactly one request with `usd` as the currency. -/
theorem batch_single_request_witness :
    (∃ c ∈ (pricePartition emptyCache 0 ["cosmos"]).2, (COINGECKO_IDS c).isSome) ∧
    (get_token_prices_batch ["cosmos"] none 0 emptyCache).requests
      = [⟨["cosmos"], "usd"⟩] ∧
    (get_token_prices_batch ["cosmos"] none 0 emptyCache).requests.length ≤ 1 := by
  refine ⟨by decide, ?_, (batch_single_request ["cosmos"] none 0 emptyCache).2⟩
  rw [(batch_single_request ["cosmos"] none 0 emptyCache).1 (by decide)]
  decide

/-- C5: the only way a batch call touches the cache entry of a chain `x` is a
successful oracle response that contains a price for `x`'s own price-feed
identifier while `x` was in the stale-or-absent set; the new entry then holds
that price with the current timestamp.  In every other situation — failed
request, `x` fresh, `x` not requested, identifier unknown, or identifier
missing from the response — `x`'s entry (price and timestamp) is exactly what
it was before the call. -/
theorem cache_write_discipline (chains : List String)
    (oracle : Option (String → Option ℚ)) (now : ℤ) (cache : Cache)
    (x : String) :
    (get_token_prices_batch chains oracle now cache).cache x = cache x ∨
    ∃ resp i p, oracle = some resp ∧ x ∈ chains ∧
      _is_price_cached cache now x = false ∧ COINGECKO_IDS x = some i ∧
      resp i = some p ∧
      (get_token_prices_batch chains oracle now cache).cache x = some ⟨p, now⟩ := by
  simp only [get_token_prices_batch]
  by_cases h1 : (pricePartition cache now chains).2.isEmpty = true
  · rw [if_pos h1]
    left
    rfl
  · rw [if_neg h1]
    by_cases h2 : (buildIdMap (pricePartition cache now chains).2).1.isEmpty = true
    · rw [if_pos h2]
      left
      rfl
    · rw [if_neg h2]
      cases oracle with
      | none => left; rfl
      | some resp =>
        rcases fetchWrite_foldl_cases resp now
            (buildIdMap (pricePartition cache now chains).2).2
            ((pricePartition cache now chains).1, cache) x with h | ⟨i, p, hm, hp, he⟩
        · left
          exact h
        · right
          rcases buildId_foldl_mem hm with h3 | ⟨h3, h4⟩
          · cases h3
          · have hx := List.mem_filter.mp
              (by rw [pricePartition_snd] at h3; exact h3)
            refine ⟨resp, i, p, rfl, hx.1, ?_, h4, hp, he⟩
            simpa using hx.2

/-- C3 counterexample: `terra` and `terra2` share the price-feed identifier
`terra-luna-2`, and the `chain_id_map` dict keeps only the last chain per
identifier, so a successful first batch for `{terra, terra2}` caches a price
for `terra2` only.  A second identical batch one second later (well inside
the 5-minute window, same oracle data) must re-fetch `terra` — it issues one
outbound request, not zero, and its `terra` price entry differs from the
first call's (absent before, $1 now). -/
theorem second_batch_refetches_counterexample :
    (get_token_prices_batch ["terra", "terra2"] (some respTerra) 1
        (get_token_prices_batch ["terra", "terra2"] (some respTerra) 0
          emptyCache).cache).requests
      = [⟨["terra-luna-2"], "usd"⟩] ∧
    (get_token_prices_batch ["terra", "terra2"] (some respTerra) 0
        emptyCache).prices "terra" = none ∧
    (get_token_prices_batch ["terra", "terra2"] (some respTerra) 1
        (get_token_prices_batch ["terra", "terra2"] (some respTerra) 0
          emptyCache).cache).prices "terra" = some (some 1) := by
  refine ⟨by decide, by decide, by decide⟩

/-! ### Lemmas for the amended C3 -/

theorem buildId_foldl_append (l : List String) (a1 : List String)
    (d : List (String × String)) (hnd : l.Nodup)
    (hinj : ∀ c1 ∈ l, ∀ c2 ∈ l, COINGECKO_IDS c1 = COINGECKO_IDS c2 →
      (COINGECKO_IDS c1).isSome → c1 = c2)
    (hdisj : ∀ e ∈ d, ∀ c ∈ l, COINGECKO_IDS c ≠ some e.1) :
    (l.foldl buildIdStep (a1, d)).2
      = d ++ l.filterMap (fun c => (COINGECKO_IDS c).map (fun i => (i, c))) := by
  induction l generalizing a1 d with
  | nil => simp
  | cons c rest ih =>
    simp only [List.foldl_cons]
    rcases List.nodup_cons.mp hnd with ⟨hcr, hndr⟩
    cases hc : COINGECKO_IDS c with
    | none =>
      simp only [buildIdStep, hc]
      rw [ih a1 d hndr
        (fun c1 h1 c2 h2 => hinj c1 (List.mem_cons_of_mem _ h1) c2
          (List.mem_cons_of_mem _ h2))
        (fun e he c' hc' => hdisj e he c' (List.mem_cons_of_mem _ hc'))]
      simp [List.filterMap_cons, hc]
    | some cid =>
      simp only [buildIdStep, hc]
      have hnotin : ¬((d.any fun p => decide (p.1 = cid)) = true) := by
        rw [List.any_eq_true]
        rintro ⟨p, hp, hpk⟩
        rw [decide_eq_true_eq] at hpk
        exact hdisj p hp c (List.mem_cons_self _ _) (by rw [hc, hpk])
      rw [dictInsert, if_neg hnotin]
      rw [ih (a1 ++ [cid]) (d ++ [(cid, c)]) hndr
        (fun c1 h1 c2 h2 => hinj c1 (List.mem_cons_of_mem _ h1) c2
          (List.mem_cons_of_mem _ h2)) ?hd]
      · simp [List.filterMap_cons, hc, List.append_assoc]
      case hd =>
        intro e he c' hc'
        rcases List.mem_append.mp he with h1 | h1
        · exact hdisj e h1 c' (List.mem_cons_of_mem _ hc')
        · have he2 : e = (cid, c) := by simpa using h1
          subst he2
          intro hid
          have hcc : c' = c := hinj c' (List.mem_cons_of_mem _ hc') c
            (List.mem_cons_self _ _) (by rw [hid, hc]) (by rw [hid]; rfl)
          exact hcr (hcc ▸ hc')

theorem pairMap_snd_sublist (l : List String) :
    ((l.filterMap (fun c => (COINGECKO_IDS c).map (fun i => (i, c)))).map
      Prod.snd).Sublist l := by
  induction l with
  | nil => simp
  | cons c rest ih =>
    cases hc : COINGECKO_IDS c with
    | none =>
      rw [List.filterMap_cons_none (by simp [hc])]
      exact ih.cons c
    | some cid =>
      simp only [List.filterMap_cons, hc, Option.map_some', List.map_cons]
      exact List.Sublist.cons₂ c ih

/-- C3 (amended): if every requested chain is uncached at the first call, the
oracle answers the first call successfully with a price for every requested
chain's known price-feed identifier, and no two distinct requested chains
share an identifier, then a second batch for the same chains within the
5-minute window issues no oracle request (whatever the oracle would do) and
returns the same price mapping as the first call. -/
theorem cached_second_batch_no_requests (chains : List String)
    (resp : String → Option ℚ) (oracle2 : Option (String → Option ℚ))
    (cache : Cache) (t1 t2 : ℤ)
    (hnd : chains.Nodup)
    (hstale : ∀ c ∈ chains, _is_price_cached cache t1 c = false)
    (hresp : ∀ c ∈ chains, ∀ i, COINGECKO_IDS c = some i → (resp i).isSome)
    (hinj : ∀ c1 ∈ chains, ∀ c2 ∈ chains, COINGECKO_IDS c1 = COINGECKO_IDS c2 →
      (COINGECKO_IDS c1).isSome → c1 = c2)
    (ht1 : t1 ≤ t2) (ht2 : t2 - t1 < cacheDuration) :
    (get_token_prices_batch chains oracle2 t2
        (get_token_prices_batch chains (some resp) t1 cache).cache).requests
      = [] ∧
    ∀ x, (get_token_prices_batch chains oracle2 t2
        (get_token_prices_batch chains (some resp) t1 cache).cache).prices x
      = (get_token_prices_batch chains (some resp) t1 cache).prices x := by
  have hctf1 : (pricePartition cache t1 chains).2 = chains := by
    rw [pricePartition_snd, List.filter_eq_self]
    intro a ha
    simp [hstale a ha]
  have hp0 : ∀ x, (pricePartition cache t1 chains).1 x = none := by
    intro x
    rw [pricePartition_fst]
    by_cases hx : x ∈ chains
    · simp [hstale x hx]
    · simp [hx]
  by_cases hempty : chains = []
  · subst hempty
    exact ⟨rfl, fun x => rfl⟩
  have hne1 : ¬(pricePartition cache t1 chains).2.isEmpty = true := by
    rw [hctf1, List.isEmpty_iff]
    exact hempty
  by_cases hids : (buildIdMap (pricePartition cache t1 chains).2).1.isEmpty = true
  · -- no requested chain resolves to a price-feed identifier
    have hallnone : ∀ c ∈ chains, COINGECKO_IDS c = none := by
      have h0 := List.isEmpty_iff.mp hids
      rw [buildIdMap_fst, hctf1] at h0
      exact List.filterMap_eq_nil_iff.mp h0
    have hb1 : get_token_prices_batch chains (some resp) t1 cache
        = ⟨(pricePartition cache t1 chains).1, cache, []⟩ := by
      simp only [get_token_prices_batch]
      rw [if_neg hne1, if_pos hids]
    have hstale2 : ∀ a ∈ chains, _is_price_cached cache t2 a = false :=
      fun a ha => stale_mono ht1 (hstale a ha)
    have hctf2 : (pricePartition cache t2 chains).2 = chains := by
      rw [pricePartition_snd, List.filter_eq_self]
      intro a ha
      simp [hstale2 a ha]
    have hne2 : ¬(pricePartition cache t2 chains).2.isEmpty = true := by
      rw [hctf2, List.isEmpty_iff]
      exact hempty
    have hids2 : (buildIdMap (pricePartition cache t2 chains).2).1.isEmpty = true := by
      rw [buildIdMap_fst, hctf2, List.filterMap_eq_nil_iff.mpr hallnone]
      rfl
    have hb2 : get_token_prices_batch chains oracle2 t2 cache
        = ⟨(pricePartition cache t2 chains).1, cache, []⟩ := by
      simp only [get_token_prices_batch]
      rw [if_neg hne2, if_pos hids2]
    constructor
    · simp only [hb1, hb2]
    · intro x
      simp only [hb1, hb2]
      rw [pricePartition_fst cache t2 chains x, hp0 x]
      by_cases hx : x ∈ chains
      · simp [hstale2 x hx]
      · simp [hx]
  · -- at least one identifier: the first call issues the one request and
    -- caches a price for every chain that has an identifier
    have hidmap : (buildIdMap (pricePartition cache t1 chains).2).2
        = chains.filterMap (fun c => (COINGECKO_IDS c).map (fun i => (i, c))) := by
      rw [hctf1]
      unfold buildIdMap
      rw [buildId_foldl_append chains [] [] hnd hinj
        (fun e he => (List.not_mem_nil e he).elim)]
      rfl
    have hb1 : get_token_prices_batch chains (some resp) t1 cache
        = ⟨((chains.filterMap (fun c => (COINGECKO_IDS c).map (fun i => (i, c)))).foldl
              (fetchWrite resp t1) ((pricePartition cache t1 chains).1, cache)).1,
           ((chains.filterMap (fun c => (COINGECKO_IDS c).map (fun i => (i, c)))).foldl
              (fetchWrite resp t1) ((pricePartition cache t1 chains).1, cache)).2,
           [⟨(buildIdMap (pricePartition cache t1 chains).2).1, "usd"⟩]⟩ := by
      simp only [get_token_prices_batch]
      rw [if_neg hne1, if_neg hids, hidmap]
    have hmv : ∀ e ∈ chains.filterMap (fun c => (COINGECKO_IDS c).map (fun i => (i, c))),
        e.2 ∈ chains ∧ COINGECKO_IDS e.2 = some e.1 := by
      intro e he
      rcases List.mem_filterMap.mp he with ⟨c, hc, hmap⟩
      rcases Option.map_eq_some'.mp hmap with ⟨i, hi, hie⟩
      subst hie
      exact ⟨hc, hi⟩
    have hmnd : ((chains.filterMap
        (fun c => (COINGECKO_IDS c).map (fun i => (i, c)))).map Prod.snd).Nodup :=
      (pairMap_snd_sublist chains).nodup hnd
    have hA : ∀ x ∈ chains, ∀ i, COINGECKO_IDS x = some i →
        ∃ p, resp i = some p ∧
          (get_token_prices_batch chains (some resp) t1 cache).prices x
            = some (some p) ∧
          (get_token_prices_batch chains (some resp) t1 cache).cache x
            = some ⟨p, t1⟩ := by
      intro x hx i hi
      rcases Option.isSome_iff_exists.mp (hresp x hx i hi) with ⟨p, hp⟩
      have hmem : (i, x) ∈ chains.filterMap
          (fun c => (COINGECKO_IDS c).map (fun i => (i, c))) :=
        List.mem_filterMap.mpr ⟨x, hx, by rw [hi]; rfl⟩
      rcases fetchWrite_foldl_write resp t1 _
        ((pricePartition cache t1 chains).1, cache) hmnd hmem hp with ⟨w1, w2⟩
      exact ⟨p, hp, by rw [hb1]; exact w1, by rw [hb1]; exact w2⟩
    have hB : ∀ x, (COINGECKO_IDS x = none ∨ x ∉ chains) →
        (get_token_prices_batch chains (some resp) t1 cache).prices x
          = (pricePartition cache t1 chains).1 x ∧
        (get_token_prices_batch chains (some resp) t1 cache).cache x = cache x := by
      intro x hx
      have hnm : ∀ e ∈ chains.filterMap
          (fun c => (COINGECKO_IDS c).map (fun i => (i, c))), e.2 ≠ x := by
        intro e he hex
        rcases hmv e he with ⟨h1, h2⟩
        rcases hx with h3 | h3
        · rw [hex, h3] at h2
          cases h2
        · exact h3 (hex ▸ h1)
      rcases fetchWrite_foldl_untouched resp t1 _
        ((pricePartition cache t1 chains).1, cache) hnm with ⟨u1, u2⟩
      exact ⟨by rw [hb1]; exact u1, by rw [hb1]; exact u2⟩
    have hfresh2 : ∀ x ∈ chains, ∀ i, COINGECKO_IDS x = some i →
        _is_price_cached
          (get_token_prices_batch chains (some resp) t1 cache).cache t2 x
          = true := by
      intro x hx i hi
      rcases hA x hx i hi with ⟨p, hp, hpx, hcx⟩
      unfold _is_price_cached
      rw [hcx]
      rw [decide_eq_true_eq]
      exact ht2
    have hstale2 : ∀ x ∈ chains, COINGECKO_IDS x = none →
        _is_price_cached
          (get_token_prices_batch chains (some resp) t1 cache).cache t2 x
          = false := by
      intro x hx hi
      have hcx := (hB x (Or.inl hi)).2
      have h2 := stale_mono ht1 (hstale x hx)
      unfold _is_price_cached at h2 ⊢
      rw [hcx]
      exact h2
    have hctf2mem : ∀ c ∈ (pricePartition
        (get_token_prices_batch chains (some resp) t1 cache).cache t2 chains).2,
        COINGECKO_IDS c = none := by
      intro c hcm
      rw [pricePartition_snd] at hcm
      rcases List.mem_filter.mp hcm with ⟨h1, h2⟩
      cases hid : COINGECKO_IDS c with
      | none => rfl
      | some i =>
        rw [hfresh2 c h1 i hid] at h2
        cases h2
    have hids2 : (buildIdMap (pricePartition
        (get_token_prices_batch chains (some resp) t1 cache).cache t2 chains).2).1
        = [] := by
      rw [buildIdMap_fst, List.filterMap_eq_nil_iff]
      exact hctf2mem
    have hb2 : get_token_prices_batch chains oracle2 t2
        (get_token_prices_batch chains (some resp) t1 cache).cache
        = ⟨(pricePartition
              (get_token_prices_batch chains (some resp) t1 cache).cache t2
              chains).1,
           (get_token_prices_batch chains (some resp) t1 cache).cache, []⟩ := by
      generalize hCC : (get_token_prices_batch chains (some resp) t1 cache).cache
        = C at hids2 ⊢
      simp only [get_token_prices_batch]
      by_cases he2 : (pricePartition C t2 chains).2.isEmpty = true
      · rw [if_pos he2]
      · rw [if_neg he2, if_pos (by rw [hids2]; rfl)]
    constructor
    · rw [hb2]
    · intro x
      rw [hb2]
      show (pricePartition
          (get_token_prices_batch chains (some resp) t1 cache).cache t2
          chains).1 x
        = (get_token_prices_batch chains (some resp) t1 cache).prices x
      rw [pricePartition_fst]
      by_cases hx : x ∈ chains
      · cases hid : COINGECKO_IDS x with
        | some i =>
          rcases hA x hx i hid with ⟨p, hp, hpx, hcx⟩
          rw [if_pos ⟨hx, hfresh2 x hx i hid⟩, hpx]
          unfold cachedVal
          rw [hcx]
          rfl
        | none =>
          rw [if_neg ?hc, (hB x (Or.inl hid)).1, hp0 x]
          case hc =>
            rintro ⟨h1, h2⟩
            rw [hstale2 x hx hid] at h2
            cases h2
      · rw [if_neg (by rintro ⟨h1, h2⟩; exact hx h1), (hB x (Or.inr hx)).1, hp0 x]

/-- C3 (amended) witness: the amended theorem applied to a cold single-chain
request for `cosmos` with an oracle pricing it at $10 and a second call one
second later. -/
theorem cached_second_batch_no_requests_witness :
    (get_token_prices_batch ["cosmos"] none 1
        (get_token_prices_batch ["cosmos"] (some respOk) 0 emptyCache).cache).requests
      = [] ∧
    (get_token_prices_batch ["cosmos"] none 1
        (get_token_prices_batch ["cosmos"] (some respOk) 0 emptyCache).cache).prices
        "cosmos"
      = (get_token_prices_batch ["cosmos"] (some respOk) 0 emptyCache).prices
        "cosmos" := by
  have h := cached_second_batch_no_requests ["cosmos"] respOk none emptyCache 0 1
    (by decide)
    (by decide)
    (by
      intro c hc i hi
      have hcc : c = "cosmos" := by simpa using hc
      subst hcc
      have hii : i = "cosmos" := by
        rw [show COINGECKO_IDS "cosmos" = some "cosmos" from rfl] at hi
        exact (Option.some.injEq _ _ ▸ hi).symm
      subst hii
      decide)
    (by
      intro c1 h1 c2 h2 _ _
      have e1 : c1 = "cosmos" := by simpa using h1
      have e2 : c2 = "cosmos" := by simpa using h2
      rw [e1, e2])
    (by decide) (by decide)
  exact ⟨h.1, h.2 "cosmos"⟩

/-! ### Lower-casing lemmas -/

theorem char_toLower_fix {c : Char} (h : c.toNat < 65 ∨ 90 < c.toNat) :
    c.toLower = c := by
  simp only [Char.toLower]
  rw [if_neg]
  omega

theorem char_ofNat_toNat_valid (m : Nat) (h : m < 55296) :
    (Char.ofNat m).toNat = m := by
  unfold Char.ofNat
  rw [dif_pos (Or.inl h)]
  rfl

theorem char_toLower_idem (c : Char) : c.toLower.toLower = c.toLower := by
  by_cases h : 65 ≤ c.toNat ∧ c.toNat ≤ 90
  · have h1 : c.toLower = Char.ofNat (c.toNat + 32) := by
      simp only [Char.toLower]
      rw [if_pos]
      exact ⟨h.1, h.2⟩
    have h2 : (Char.ofNat (c.toNat + 32)).toNat = c.toNat + 32 :=
      char_ofNat_toNat_valid _ (by omega)
    rw [h1]
    exact char_toLower_fix (by rw [h2]; omega)
  · have hfix : c.toLower = c := char_toLower_fix (by omega)
    rw [hfix, hfix]

theorem pyLower_idem (s : String) : pyLower (pyLower s) = pyLower s := by
  unfold pyLower
  rw [show (String.mk (s.data.map Char.toLower)).data = s.data.map Char.toLower
    from rfl]
  rw [List.map_map]
  exact congrArg String.mk (List.map_congr_left fun a _ => char_toLower_idem a)

theorem coingecko_key_fixed {c x : String} (h : COINGECKO_IDS c = some x) :
    pyLower c = c := by
  unfold COINGECKO_IDS at h
  split at h <;> first | decide | cases h

/-- Shared helper: with a known chain id and a retrievable host zone, an
absent resolved price makes `calculate_daily_fee` return zero fees and zero
revenue. -/
theorem calc_fee_zero_price (chain cid : String) (hz : HostZone)
    (hostZones : String → Option HostZone)
    (oracle : Option (String → Option ℚ)) (now : ℤ) (cache : Cache)
    (hid : CHAIN_ID_MAP (pyLower chain) = some cid)
    (hhz : hostZones cid = some hz)
    (hprice : (get_token_price chain oracle now cache).1 = none) :
    calculate_daily_fee chain hostZones oracle now cache = .ok ⟨0, 0⟩ := by
  simp only [calculate_daily_fee, hid, hhz, hprice]
  simp

/-- Shared helper: a stale chain with no CoinGecko identifier resolves to an
absent price. -/
theorem no_id_no_price (chain : String)
    (oracle : Option (String → Option ℚ)) (now : ℤ) (cache : Cache)
    (hcg : COINGECKO_IDS chain = none)
    (hstale : _is_price_cached cache now chain = false) :
    (get_token_price chain oracle now cache).1 = none := by
  unfold get_token_price
  rw [if_neg (by simp [hstale])]
  show ((get_token_prices_batch [chain] oracle now cache).prices chain).join
    = none
  have hctf : (pricePartition cache now [chain]).2 = [chain] := by
    rw [pricePartition_snd]
    simp [hstale]
  have hids : (buildIdMap (pricePartition cache now [chain]).2).1 = [] := by
    rw [buildIdMap_fst, hctf]
    simp [hcg]
  have hne : ¬(pricePartition cache now [chain]).2.isEmpty = true := by
    simp [hctf]
  simp only [get_token_prices_batch]
  rw [if_neg hne, if_pos (by rw [hids]; rfl)]
  show ((pricePartition cache now [chain]).1 chain).join = none
  rw [pricePartition_fst]
  simp [hstale]

/-- C9: a chain name whose lower-cased form has no `CHAIN_ID_MAP` descriptor
makes `calculate_daily_fee` fail with the unknown-chain error, and the
single-chain endpoint answers 404 (never a 500). -/
theorem unknown_chain_404 (chain : String)
    (hostZones : String → Option HostZone)
    (oracle : Option (String → Option ℚ)) (now : ℤ) (cache : Cache)
    (h : CHAIN_ID_MAP (pyLower chain) = none) :
    calculate_daily_fee chain hostZones oracle now cache
      = .error (.unknownChain chain) ∧
    get_chain_fees chain hostZones oracle now cache = (404, none) := by
  constructor
  · simp only [calculate_daily_fee]
    rw [h]
  · simp only [get_chain_fees]
    have hterra : ¬(pyLower chain = "terra") := by
      intro he
      rw [he] at h
      exact absurd h (by decide)
    rw [if_neg hterra]
    simp only [calculate_daily_fee]
    rw [pyLower_idem, h]

/-- C9 witness: the theorem applied to the unknown name `nosuchchain`. -/
theorem unknown_chain_404_witness :
    calculate_daily_fee "nosuchchain" noHostZones none 0 emptyCache
      = .error (.unknownChain "nosuchchain") ∧
    get_chain_fees "nosuchchain" noHostZones none 0 emptyCache = (404, none) :=
  unknown_chain_404 "nosuchchain" noHostZones none 0 emptyCache (by decide)

/-- C2 counterexample: for the known chain `cosmos` with an unreachable (or
host-zone-less) gateway, `calculate_daily_fee` does fail, but the single-chain
endpoint surfaces the failure as 404 — both of its failure modes are
`ValueError`, which `get_chain_fees` maps to 404 — contradicting the claimed
500-equivalent server error. -/
theorem upstream_error_counterexample :
    calculate_daily_fee "cosmos" noHostZones none 0 emptyCache
      = .error (.hostZoneNotFound "cosmoshub-4") ∧
    (get_chain_fees "cosmos" noHostZones none 0 emptyCache).1 = 404 ∧
    (404 : Nat) ≠ 500 :=
  ⟨rfl, rfl, by decide⟩

/-- C2 (amended): for every chain name with a descriptor, a failing host-zone
fetch makes `calculate_daily_fee` fail with the host-zone-not-found error, and
the single-chain endpoint surfaces this as a 404 client error (not a 500),
because the source raises `ValueError` for it and the handler maps every
`ValueError` to 404. -/
theorem host_zone_failure_404 (chain cid : String)
    (hostZones : String → Option HostZone)
    (oracle : Option (String → Option ℚ)) (now : ℤ) (cache : Cache)
    (hid : CHAIN_ID_MAP (pyLower chain) = some cid)
    (hz : ∀ x, hostZones x = none) :
    calculate_daily_fee chain hostZones oracle now cache
      = .error (.hostZoneNotFound cid) ∧
    (get_chain_fees chain hostZones oracle now cache).1 = 404 := by
  constructor
  · simp only [calculate_daily_fee, hid, hz]
  · simp only [get_chain_fees]
    by_cases hterra : pyLower chain = "terra"
    · rw [if_pos hterra]
      simp only [calculate_daily_fee, hz,
        show CHAIN_ID_MAP (pyLower "terra2") = some "phoenix-1" from rfl]
    · rw [if_neg hterra]
      simp only [calculate_daily_fee, pyLower_idem, hid, hz]

/-- C2 (amended) witness: the amended theorem applied to `cosmos` with a
gateway on which every fetch fails. -/
theorem host_zone_failure_404_witness :
    calculate_daily_fee "cosmos" noHostZones none 0 emptyCache
      = .error (.hostZoneNotFound "cosmoshub-4") ∧
    (get_chain_fees "cosmos" noHostZones none 0 emptyCache).1 = 404 :=
  host_zone_failure_404 "cosmos" "cosmoshub-4" noHostZones none 0 emptyCache
    (by decide) (fun _ => rfl)

/-- C7: for every chain with a descriptor and a retrievable host zone, an
absent resolved USD price does not make `calculate_daily_fee` fail: the price
is taken as 0 and the returned estimate reports zero fees and revenue. -/
theorem missing_price_reports_zero (chain cid : String) (hz : HostZone)
    (hostZones : String → Option HostZone)
    (oracle : Option (String → Option ℚ)) (now : ℤ) (cache : Cache)
    (hid : CHAIN_ID_MAP (pyLower chain) = some cid)
    (hhz : hostZones cid = some hz)
    (hprice : (get_token_price chain oracle now cache).1 = none) :
    calculate_daily_fee chain hostZones oracle now cache = .ok ⟨0, 0⟩ :=
  calc_fee_zero_price chain cid hz hostZones oracle now cache hid hhz hprice

/-- C7 witness: the theorem applied to `cosmos` on a cold cache with a failing
oracle, so the resolved price is absent while the host zone is available. -/
theorem missing_price_reports_zero_witness :
    calculate_daily_fee "cosmos" hostZonesExample none 0 emptyCache
      = .ok ⟨0, 0⟩ :=
  missing_price_reports_zero "cosmos" "cosmoshub-4" hzExample hostZonesExample
    none 0 emptyCache (by decide) rfl (by decide)

/-- C10: `calculate_daily_fee` lower-cases the name only for the chain-id
lookup, so a known chain supplied in non-lowercase form (its lower-casing has
a descriptor but the name itself differs from it) does not fail with the
unknown-chain error; its CoinGecko and decimals lookups use the raw name, the
price resolves to absent and is taken as 0, and the estimate reports zero
fees and revenue whenever the host-zone fetch succeeds. -/
theorem case_sensitive_price_lookup (chain cid : String) (hz : HostZone)
    (hostZones : String → Option HostZone)
    (oracle : Option (String → Option ℚ)) (now : ℤ) (cache : Cache)
    (hid : CHAIN_ID_MAP (pyLower chain) = some cid)
    (hlow : chain ≠ pyLower chain)
    (hstale : _is_price_cached cache now chain = false)
    (hhz : hostZones cid = some hz) :
    calculate_daily_fee chain hostZones oracle now cache = .ok ⟨0, 0⟩ := by
  have hcg : COINGECKO_IDS chain = none := by
    cases hcg : COINGECKO_IDS chain with
    | none => rfl
    | some x => exact absurd (coingecko_key_fixed hcg).symm hlow
  exact calc_fee_zero_price chain cid hz hostZones oracle now cache hid hhz
    (no_id_no_price chain oracle now cache hcg hstale)

/-- C10 witness: the theorem applied to `Cosmos` (capitalised), which has a
descriptor via lower-casing but no CoinGecko entry as written. -/
theorem case_sensitive_price_lookup_witness :
    calculate_daily_fee "Cosmos" hostZonesExample none 0 emptyCache
      = .ok ⟨0, 0⟩ :=
  case_sensitive_price_lookup "Cosmos" "cosmoshub-4" hzExample hostZonesExample
    none 0 emptyCache (by decide) (by decide) (by decide) rfl

/-- C6: on the spec's worked example — decimals 6, redemption rate 1.5,
total delegated stake 1,000,000, price $10 — the calculation yields
dailyRewardsNative = 750, dailyFeesUSD = 0.0075 and dailyRevenueUSD =
0.00075, exactly as claimed. -/
theorem fee_formula_example :
    calculate_daily_fee "cosmos" hostZonesExample none 0 cacheExample
      = .ok ⟨0.0075, 0.00075⟩ ∧
    (1000000 : ℚ) * (3 / 2) * 0.0005 = 750 ∧
    (750 : ℚ) * 10 / 10 ^ 6 = 0.0075 ∧
    (0.0075 : ℚ) * 0.10 = 0.00075 := by
  refine ⟨?_, by norm_num, by norm_num, by norm_num⟩
  have h : calculate_daily_fee "cosmos" hostZonesExample none 0 cacheExample
      = .ok ⟨1000000 * (3 / 2) * 0.0005 * 10 / 10 ^ 6,
             1000000 * (3 / 2) * 0.0005 * 10 / 10 ^ 6 * 0.10⟩ := rfl
  rw [h]
  simp only [Except.ok.injEq, FeeEstimate.mk.injEq]
  constructor <;> norm_num

end StrideFees
